import Mathlib

/-!
Verification development for the OBJ mesh-loading code of this repository.

The repository contains two variants of `loadOBJ`:
* an indexed, deduplicating variant (file `part_000`, namespace `Part000` below):
  it resolves each face corner into a `Vertex`, deduplicates bitwise-identical
  vertices through an `unordered_map`, and returns a vertex buffer plus an
  index buffer;
* a flat variant (file `main.cpp`, namespace `MainCpp` below): it checks that
  every face has exactly 3 corners (throwing otherwise) and emits every
  resolved corner directly, with no index buffer.

Floating-point values are modelled by their 32-bit IEEE-754 bit patterns,
represented as `Nat`.  This is faithful because the loaders never perform
arithmetic on the floats: they only copy them out of the parser's flat arrays
and compare them with `memcmp` (exact bitwise comparison).  The `Vertex`
struct is 8 tightly-packed 32-bit floats (no padding), so `memcmp` equality
is exactly componentwise bit equality.

`std::vector::operator[]` performs no bounds check in C++; an out-of-range
access is undefined behaviour.  Reads are therefore modelled with
`List.get?`, and a failed read propagates to the result `Res.ub`
("undefined behaviour"), distinct both from a thrown exception
(`Res.thrown`) and from a returned mesh (`Res.ok`).

The `(uint32_t)` casts of the C++ code are modelled by `% U32MOD`.
-/

/-- 2^32, the modulus of the C++ `uint32_t` casts. -/
def U32MOD : Nat := 4294967296

/-- Bit pattern of the float literal `0.0f`. -/
def F0 : Nat := 0

/-- Bit pattern of the float literal `1.0f`. -/
def F1 : Nat := 1065353216

/-- Bit pattern of the float `-0.0f` (compares `==` to `0.0f` in IEEE-754
floating-point comparison, but is a distinct bit pattern). -/
def FNEG0 : Nat := 2147483648

/-- `struct vec2 { float x, y; }` with floats as bit patterns. -/
structure vec2 where
  x : Nat
  y : Nat
deriving DecidableEq

/-- `struct vec3 { float x, y, z; }` with floats as bit patterns. -/
structure vec3 where
  x : Nat
  y : Nat
  z : Nat
deriving DecidableEq

/-- `struct Vertex { vec3 position; vec3 normal; vec2 texcoords; }`. -/
structure Vertex where
  position : vec3
  normal : vec3
  texcoords : vec2
deriving DecidableEq

/-- `tinyobj::index_t`: per-corner attribute indices; the normal and texcoord
indices are signed, a negative value meaning "no attribute supplied". -/
structure ObjIndex where
  vertex_index : Int
  normal_index : Int
  texcoord_index : Int
deriving DecidableEq

/-- The `mesh` field of a `tinyobj` shape: per-face corner counts and the flat
corner index stream. -/
structure ObjMesh where
  num_face_vertices : List Nat
  indices : List ObjIndex
deriving DecidableEq

/-- A `tinyobj` shape. -/
structure Shape where
  mesh : ObjMesh
deriving DecidableEq

/-- `tinyobj::attrib_t`: flat arrays of float components (bit patterns):
positions grouped in 3s, normals in 3s, texcoords in 2s. -/
structure Attrib where
  vertices : List Nat
  normals : List Nat
  texcoords : List Nat
deriving DecidableEq

/-- The parsed OBJ data handed to the loaders by the `tinyobj` parser. -/
structure ObjData where
  attrib : Attrib
  shapes : List Shape
deriving DecidableEq

/-- A C++ `std::vector` read `l[i]` with a (signed) index expression:
no bounds check is performed by the source, so an out-of-range or negative
index yields `none`, which the embedding propagates as undefined behaviour. -/
def vecGet (l : List Nat) (i : Int) : Option Nat :=
  if 0 ≤ i then l.get? i.toNat else none

/-- Three consecutive component reads `l[base + 0]`, `l[base + 1]`,
`l[base + 2]`. -/
def readVec3 (l : List Nat) (base : Int) : Option vec3 := do
  let x ← vecGet l (base + 0)
  let y ← vecGet l (base + 1)
  let z ← vecGet l (base + 2)
  pure ⟨x, y, z⟩

/-- Two consecutive component reads `l[base + 0]`, `l[base + 1]`. -/
def readVec2 (l : List Nat) (base : Int) : Option vec2 := do
  let x ← vecGet l (base + 0)
  let y ← vecGet l (base + 1)
  pure ⟨x, y⟩

/-- Resolution of one corner into a concrete `Vertex`, shared shape of both
loaders (they differ only in the fallback normal constant):
position from `attrib.vertices[3*vertex_index + k]`; normal from
`attrib.normals[3*normal_index + k]` when the normals array is non-empty and
`normal_index >= 0`, else the fallback; texcoord from
`attrib.texcoords[2*texcoord_index + k]` when present, else `(0,0)`. -/
def resolveCornerWith (fallbackNormal : vec3) (a : Attrib) (idx : ObjIndex) :
    Option Vertex :=
  (readVec3 a.vertices (3 * idx.vertex_index)).bind fun p =>
  (if a.normals ≠ [] ∧ 0 ≤ idx.normal_index then
      readVec3 a.normals (3 * idx.normal_index)
    else some fallbackNormal).bind fun n =>
  (if a.texcoords ≠ [] ∧ 0 ≤ idx.texcoord_index then
      readVec2 a.texcoords (2 * idx.texcoord_index)
    else some ⟨F0, F0⟩).bind fun t =>
  some ⟨p, n, t⟩

/-- `Vertex::operator==`: `memcmp(this, &other, sizeof(Vertex)) == 0`.
`Vertex` is 8 tightly-packed 32-bit floats, so this is the conjunction of
the 8 componentwise bit-pattern equalities. -/
def vertexMemcmpEq (x y : Vertex) : Bool :=
  (x.position.x == y.position.x) && (x.position.y == y.position.y) &&
  (x.position.z == y.position.z) &&
  (x.normal.x == y.normal.x) && (x.normal.y == y.normal.y) &&
  (x.normal.z == y.normal.z) &&
  (x.texcoords.x == y.texcoords.x) && (x.texcoords.y == y.texcoords.y)

/-- Result of a `loadOBJ` call: a returned value, a thrown C++ exception
(with its message), or undefined behaviour (an out-of-bounds vector read). -/
inductive Res (α : Type) where
  | ok : α → Res α
  | thrown : String → Res α
  | ub : Res α
deriving DecidableEq

/-- Whether a `Res` is a thrown exception. -/
def Res.isThrown {α : Type} : Res α → Bool
  | .thrown _ => true
  | _ => false

/-- Whether a `Res` is a returned value. -/
def Res.isOk {α : Type} : Res α → Bool
  | .ok _ => true
  | _ => false

/-- Index of the first occurrence of `v` in a list (equals the length when
`v` is absent). -/
def idxOf {α : Type} [DecidableEq α] (v : α) : List α → Nat
  | [] => 0
  | a :: l => if a = v then 0 else idxOf v l + 1

namespace Part000

/-- The local state of the deduplicating loop of `part_000`'s `loadOBJ`:
`std::vector<Vertex> vertices`, `std::vector<uint32_t> indices`,
`std::unordered_map<Vertex, uint32_t> uniqueVertices` (modelled as an
association list keyed by `Vertex::operator==`, i.e. `vertexMemcmpEq`). -/
structure DedupState where
  vertices : List Vertex
  indices : List Nat
  uniqueVertices : List (Vertex × Nat)
deriving DecidableEq

/-- The empty state at the top of `loadOBJ`. -/
def initState : DedupState := ⟨[], [], []⟩

/-- Lookup in the `unordered_map`, comparing keys with `Vertex::operator==`. -/
def lookupU : List (Vertex × Nat) → Vertex → Option Nat
  | [], _ => none
  | (k, i) :: m, v => if vertexMemcmpEq k v then some i else lookupU m v

/-- One corner of the dedup loop body:
`if (uniqueVertices.count(vertex) == 0) { uniqueVertices[vertex] =
(uint32_t)vertices.size(); vertices.push_back(vertex); }
indices.push_back(uniqueVertices[vertex]);`
(`count == 0` is absence from the map; the stored index is the vertex count
at insertion time, cast to `uint32_t`). -/
def dedupInsert (s : DedupState) (v : Vertex) : DedupState :=
  match lookupU s.uniqueVertices v with
  | some i => { s with indices := s.indices ++ [i] }
  | none =>
      { vertices := s.vertices ++ [v]
        indices := s.indices ++ [s.vertices.length % U32MOD]
        uniqueVertices := (v, s.vertices.length % U32MOD) :: s.uniqueVertices }

/-- Run the dedup loop body over a list of already-resolved corner values. -/
def processList (s : DedupState) (l : List Vertex) : DedupState :=
  l.foldl dedupInsert s

/-- The dedup loop run from the empty state. -/
def dedupCore (l : List Vertex) : DedupState :=
  processList initState l

/-- `part_000`'s corner resolution: the fallback normal is `vec3{0.f,0.f,1.f}`. -/
def resolveCorner (a : Attrib) (idx : ObjIndex) : Option Vertex :=
  resolveCornerWith ⟨F0, F0, F1⟩ a idx

/-- The face loop of `part_000`'s `loadOBJ` over one shape, carrying the
dedup state.  The first argument of the recursion is the number of remaining
face records (the loop bound is `num_face_vertices.size()`; the per-face
corner counts themselves are never consulted), the second the current
`index_offset`.  Each face reads corners `indices[off + 0 .. off + 2]`,
resolves each and feeds it to the dedup body, then advances the offset by 3
(`index_offset += 3`). -/
def buildFaces (a : Attrib) (inds : List ObjIndex) :
    Nat → Nat → DedupState → Option DedupState
  | 0, _, st => some st
  | n + 1, off, st => do
      let i0 ← inds.get? (off + 0)
      let v0 ← resolveCorner a i0
      let st0 := dedupInsert st v0
      let i1 ← inds.get? (off + 1)
      let v1 ← resolveCorner a i1
      let st1 := dedupInsert st0 v1
      let i2 ← inds.get? (off + 2)
      let v2 ← resolveCorner a i2
      let st2 := dedupInsert st1 v2
      buildFaces a inds n (off + 3) st2

/-- The shape loop of `part_000`'s `loadOBJ`. -/
def buildShapes (a : Attrib) : List Shape → DedupState → Option DedupState
  | [], st => some st
  | s :: rest, st => do
      let st' ← buildFaces a s.mesh.indices s.mesh.num_face_vertices.length 0 st
      buildShapes a rest st'

/-- `struct Mesh` of `part_000`: vertex and index buffers with `uint32_t`
counts.  The buffers hold the contents of the local vectors. -/
structure Mesh where
  vertices : List Vertex
  indices : List Nat
  vertexCount : Nat
  indexCount : Nat
deriving DecidableEq

/-- `part_000`'s `loadOBJ`.  The `tinyobj` parse is external; its outcome is
the parameter (`none`: `ParseFromFile` returned false, upon which the code
throws `"Failed to load OBJ"`).  On success the mesh packages the two vectors,
with counts cast to `uint32_t`. -/
def loadOBJ (parsed : Option ObjData) : Res Mesh :=
  match parsed with
  | none => .thrown "Failed to load OBJ"
  | some d =>
      match buildShapes d.attrib d.shapes initState with
      | none => .ub
      | some st =>
          .ok { vertices := st.vertices
                indices := st.indices
                vertexCount := st.vertices.length % U32MOD
                indexCount := st.indices.length % U32MOD }

/-- Specification-side view of the corner scan of one shape: the sequence of
resolved corner `Vertex` values, in scan order, independent of the dedup
state (used to state round-trip properties; proven below to factor
`buildFaces`). -/
def faceStream (a : Attrib) (inds : List ObjIndex) :
    Nat → Nat → Option (List Vertex)
  | 0, _ => some []
  | n + 1, off => do
      let i0 ← inds.get? (off + 0)
      let v0 ← resolveCorner a i0
      let i1 ← inds.get? (off + 1)
      let v1 ← resolveCorner a i1
      let i2 ← inds.get? (off + 2)
      let v2 ← resolveCorner a i2
      let rest ← faceStream a inds n (off + 3)
      pure (v0 :: v1 :: v2 :: rest)

/-- The full resolved corner stream over all shapes, in scan order. -/
def shapesStream (a : Attrib) : List Shape → Option (List Vertex)
  | [] => some []
  | s :: rest => do
      let l ← faceStream a s.mesh.indices s.mesh.num_face_vertices.length 0
      let r ← shapesStream a rest
      pure (l ++ r)

/-- Well-formedness of the dedup state: the unique-vertex list has no
duplicates, and the map contains exactly the seen vertices, each bound to
its (truncated) position of first occurrence. -/
def WF (s : DedupState) : Prop :=
  s.vertices.Nodup ∧
  ∀ v i, lookupU s.uniqueVertices v = some i ↔
    v ∈ s.vertices ∧ i = idxOf v s.vertices % U32MOD

/-- Specification-side description of the unique vertices the dedup loop
appends when run over `l` starting from already-seen vertices `seen`:
the elements of `l` not already seen, in first-occurrence order. -/
def newUniq (seen : List Vertex) : List Vertex → List Vertex
  | [] => []
  | v :: l => if v ∈ seen then newUniq seen l else v :: newUniq (seen ++ [v]) l

/-- Specification-side description of the indices the dedup loop appends when
run over `l` starting from seen vertices `seen`: the (truncated) position of
each corner's value in the unique-vertex list. -/
def newIdxs (seen : List Vertex) : List Vertex → List Nat
  | [] => []
  | v :: l =>
      if v ∈ seen then (idxOf v seen % U32MOD) :: newIdxs seen l
      else (seen.length % U32MOD) :: newIdxs (seen ++ [v]) l

end Part000

/-- Sequencing of an unchecked C++ `std::vector` read inside a computation
returning `Res`: an out-of-range read is undefined behaviour for the whole
call. -/
def bindRead {α β : Type} : Option α → (α → Res β) → Res β
  | none, _ => .ub
  | some x, f => f x

/-- Sequencing of two `Res` computations (C++ statement sequencing: a thrown
exception or undefined behaviour in the first aborts the rest). -/
def rbind {α β : Type} : Res α → (α → Res β) → Res β
  | .ok x, f => f x
  | .thrown msg, _ => .thrown msg
  | .ub, _ => .ub

/-- Mapping over a successful `Res` result. -/
def rmap {α β : Type} (f : α → β) : Res α → Res β
  | .ok x => .ok (f x)
  | .thrown msg => .thrown msg
  | .ub => .ub

namespace MainCpp

/-- `main.cpp`'s corner resolution: the fallback normal is `{0.0f,0.0f,0.0f}`. -/
def resolveCorner (a : Attrib) (idx : ObjIndex) : Option Vertex :=
  resolveCornerWith ⟨F0, F0, F0⟩ a idx

/-- The face loop of `main.cpp`'s `loadOBJ` over one shape: for each face it
reads `fv = num_face_vertices[f]` and throws
`"Non-triangle face detected."` when `fv != 3` (before touching the face's
corners); otherwise it resolves corners `indices[off + 0 .. off + 2]` and
appends them to the flat vertex list (`vertices.push_back`), then advances
the offset by `fv` (`index_offset += fv`). -/
def buildFaces (a : Attrib) (inds : List ObjIndex) :
    List Nat → Nat → Res (List Vertex)
  | [], _ => .ok []
  | fv :: fvs, off =>
      if fv ≠ 3 then .thrown "Non-triangle face detected."
      else
        bindRead (inds.get? (off + 0)) fun i0 =>
        bindRead (resolveCorner a i0) fun v0 =>
        bindRead (inds.get? (off + 1)) fun i1 =>
        bindRead (resolveCorner a i1) fun v1 =>
        bindRead (inds.get? (off + 2)) fun i2 =>
        bindRead (resolveCorner a i2) fun v2 =>
        rmap (fun rest => v0 :: v1 :: v2 :: rest) (buildFaces a inds fvs (off + fv))

/-- The shape loop of `main.cpp`'s `loadOBJ`, accumulating the flat vertex
list across shapes. -/
def buildShapes (a : Attrib) : List Shape → Res (List Vertex)
  | [] => .ok []
  | s :: rest =>
      rbind (buildFaces a s.mesh.indices s.mesh.num_face_vertices 0) fun l =>
      rmap (fun r => l ++ r) (buildShapes a rest)

/-- `struct Mesh` of `main.cpp`: a flat vertex buffer and its `uint32_t`
count (no index buffer). -/
structure Mesh where
  vertices : List Vertex
  vertexCount : Nat
deriving DecidableEq

/-- `main.cpp`'s `loadOBJ`.  `none`: `ParseFromFile` returned false, upon
which the code throws `"Failed to load OBJ file."`. -/
def loadOBJ (parsed : Option ObjData) : Res Mesh :=
  match parsed with
  | none => .thrown "Failed to load OBJ file."
  | some d =>
      rmap (fun vs => { vertices := vs, vertexCount := vs.length % U32MOD })
        (buildShapes d.attrib d.shapes)

/-- Specification-side view of `main.cpp`'s corner scan of one shape over `n`
triangular faces: the resolved corner values in scan order. -/
def cornerStream (a : Attrib) (inds : List ObjIndex) :
    Nat → Nat → Option (List Vertex)
  | 0, _ => some []
  | n + 1, off => do
      let i0 ← inds.get? (off + 0)
      let v0 ← resolveCorner a i0
      let i1 ← inds.get? (off + 1)
      let v1 ← resolveCorner a i1
      let i2 ← inds.get? (off + 2)
      let v2 ← resolveCorner a i2
      let rest ← cornerStream a inds n (off + 3)
      pure (v0 :: v1 :: v2 :: rest)

end MainCpp

/-- Replaying an index sequence against a vertex sequence: map each index `i`
to `vertices[indices[i]]`, in order (`none` when an index is out of range). -/
def replay (vs : List Vertex) : List Nat → Option (List Vertex)
  | [] => some []
  | i :: is => do
      let v ← vs.get? i
      let r ← replay vs is
      pure (v :: r)

/-- Total number of face records across all shapes. -/
def totalFaces (ss : List Shape) : Nat :=
  (ss.map (fun s => s.mesh.num_face_vertices.length)).sum

/-- A triangle with three distinct positions and no normal or texcoord data:
positions `[1,2,3,4,5,6,7,8,9]` (bit patterns), one face referencing
positions 0, 1, 2 with absent (`-1`) normal and texcoord indices. -/
def demoData : ObjData :=
  { attrib := { vertices := [1, 2, 3, 4, 5, 6, 7, 8, 9], normals := [], texcoords := [] }
    shapes := [⟨⟨[3], [⟨0, -1, -1⟩, ⟨1, -1, -1⟩, ⟨2, -1, -1⟩]⟩⟩] }

/-- A triangle whose corners resolve to values A, B, A: two corners share
position 0, the third uses position 1; no normals or texcoords. -/
def dupData : ObjData :=
  { attrib := { vertices := [1, 2, 3, 4, 5, 6], normals := [], texcoords := [] }
    shapes := [⟨⟨[3], [⟨0, -1, -1⟩, ⟨1, -1, -1⟩, ⟨0, -1, -1⟩]⟩⟩] }

/-- A corner with position index 1 while the position array holds a single
position (3 floats): resolving it reads `vertices[3..5]`, out of bounds. -/
def oobData : ObjData :=
  { attrib := { vertices := [1, 2, 3], normals := [], texcoords := [] }
    shapes := [⟨⟨[3], [⟨0, -1, -1⟩, ⟨1, -1, -1⟩, ⟨0, -1, -1⟩]⟩⟩] }

/-- A corner with normal index 5 while the normals array holds a single
normal: the guard (`normals` non-empty, index non-negative) passes and the
loader reads `normals[15..17]`, out of bounds. -/
def oobNormalData : ObjData :=
  { attrib := { vertices := [1, 2, 3], normals := [10, 11, 12], texcoords := [] }
    shapes := [⟨⟨[3], [⟨0, 5, -1⟩, ⟨0, 5, -1⟩, ⟨0, 5, -1⟩]⟩⟩] }

/-- A fully attributed triangle shape: one face over positions 0, 1, 2, all
corner attribute indices 0 (in range, non-negative). -/
def goodShape : Shape := ⟨⟨[3], [⟨0, 0, 0⟩, ⟨1, 0, 0⟩, ⟨2, 0, 0⟩]⟩⟩

/-- A fully attributed triangle: three distinct positions, one normal, one
texcoord, all corner indices in range and non-negative. -/
def goodData : ObjData :=
  { attrib := { vertices := [1, 2, 3, 4, 5, 6, 7, 8, 9], normals := [10, 11, 12]
                texcoords := [20, 21] }
    shapes := [goodShape] }

/-- A shape holding a single quad face record (4 corners). -/
def quadShape : Shape :=
  ⟨⟨[4], [⟨0, -1, -1⟩, ⟨1, -1, -1⟩, ⟨2, -1, -1⟩, ⟨3, -1, -1⟩]⟩⟩

/-- A single quad face record (4 corners). -/
def quadData : ObjData :=
  { attrib := { vertices := [1, 2, 3, 4, 5, 6, 7, 8, 9, 10, 11, 12], normals := []
                texcoords := [] }
    shapes := [quadShape] }

/-- A vertex whose components are all `+0.0f` bit patterns. -/
def vPosZero : Vertex := ⟨⟨F0, F0, F0⟩, ⟨F0, F0, F0⟩, ⟨F0, F0⟩⟩

/-- The same vertex except that `position.z` is `-0.0f`: equal to `vPosZero`
under IEEE-754 floating-point comparison, but a different bit pattern. -/
def vNegZero : Vertex := ⟨⟨F0, F0, FNEG0⟩, ⟨F0, F0, F0⟩, ⟨F0, F0⟩⟩

/-- The mesh `part_000`'s loader produces on `demoData` (fallback normal
`(0,0,1)`). -/
def demoMeshP : Part000.Mesh :=
  ⟨[⟨⟨1, 2, 3⟩, ⟨F0, F0, F1⟩, ⟨F0, F0⟩⟩, ⟨⟨4, 5, 6⟩, ⟨F0, F0, F1⟩, ⟨F0, F0⟩⟩,
    ⟨⟨7, 8, 9⟩, ⟨F0, F0, F1⟩, ⟨F0, F0⟩⟩], [0, 1, 2], 3, 3⟩

/-- The mesh `main.cpp`'s loader produces on `demoData` (fallback normal
`(0,0,0)`). -/
def demoMeshM : MainCpp.Mesh :=
  ⟨[⟨⟨1, 2, 3⟩, ⟨F0, F0, F0⟩, ⟨F0, F0⟩⟩, ⟨⟨4, 5, 6⟩, ⟨F0, F0, F0⟩, ⟨F0, F0⟩⟩,
    ⟨⟨7, 8, 9⟩, ⟨F0, F0, F0⟩, ⟨F0, F0⟩⟩], 3⟩

/-- The mesh `part_000`'s loader produces on `goodData`. -/
def goodMeshP : Part000.Mesh :=
  ⟨[⟨⟨1, 2, 3⟩, ⟨10, 11, 12⟩, ⟨20, 21⟩⟩, ⟨⟨4, 5, 6⟩, ⟨10, 11, 12⟩, ⟨20, 21⟩⟩,
    ⟨⟨7, 8, 9⟩, ⟨10, 11, 12⟩, ⟨20, 21⟩⟩], [0, 1, 2], 3, 3⟩

/-- The mesh `main.cpp`'s loader produces on `goodData`. -/
def goodMeshM : MainCpp.Mesh :=
  ⟨[⟨⟨1, 2, 3⟩, ⟨10, 11, 12⟩, ⟨20, 21⟩⟩, ⟨⟨4, 5, 6⟩, ⟨10, 11, 12⟩, ⟨20, 21⟩⟩,
    ⟨⟨7, 8, 9⟩, ⟨10, 11, 12⟩, ⟨20, 21⟩⟩], 3⟩

theorem idxOf_lt_length {α : Type} [DecidableEq α] {v : α} :
    ∀ {l : List α}, v ∈ l → idxOf v l < l.length
  | a :: l, h => by
    by_cases ha : a = v
    · simp [idxOf, ha]
    · have hv : v ∈ l := by
        rcases List.mem_cons.mp h with h' | h'
        · exact absurd h'.symm ha
        · exact h'
      simpa [idxOf, ha] using idxOf_lt_length hv

theorem get?_idxOf {α : Type} [DecidableEq α] {v : α} :
    ∀ {l : List α}, v ∈ l → l.get? (idxOf v l) = some v
  | a :: l, h => by
    by_cases ha : a = v
    · simp [idxOf, ha]
    · have hv : v ∈ l := by
        rcases List.mem_cons.mp h with h' | h'
        · exact absurd h'.symm ha
        · exact h'
      simpa [idxOf, ha] using get?_idxOf hv

theorem idxOf_append_left {α : Type} [DecidableEq α] {v : α} :
    ∀ {l₁ : List α} (l₂ : List α), v ∈ l₁ → idxOf v (l₁ ++ l₂) = idxOf v l₁
  | a :: l, l₂, h => by
    by_cases ha : a = v
    · simp [idxOf, ha]
    · have hv : v ∈ l := by
        rcases List.mem_cons.mp h with h' | h'
        · exact absurd h'.symm ha
        · exact h'
      simpa [idxOf, ha] using idxOf_append_left l₂ hv

theorem idxOf_append_new {α : Type} [DecidableEq α] {v : α} :
    ∀ {l : List α}, v ∉ l → idxOf v (l ++ [v]) = l.length
  | [], _ => by simp [idxOf]
  | a :: l, h => by
    have ha : a ≠ v := fun hav => h (by simp [hav])
    have hv : v ∉ l := fun hv => h (List.mem_cons_of_mem a hv)
    simpa [idxOf, ha] using idxOf_append_new hv

/-- `Vertex::operator==` (the `memcmp`) holds exactly when the two vertices
agree on all 8 bit-pattern components, i.e. when they are equal values. -/
theorem vertexMemcmpEq_iff (x y : Vertex) : vertexMemcmpEq x y = true ↔ x = y := by
  obtain ⟨⟨px, py, pz⟩, ⟨nx, ny, nz⟩, ⟨tx, ty⟩⟩ := x
  obtain ⟨⟨qx, qy, qz⟩, ⟨mx, my, mz⟩, ⟨sx, sy⟩⟩ := y
  simp only [vertexMemcmpEq, Bool.and_eq_true, beq_iff_eq,
    Vertex.mk.injEq, vec3.mk.injEq, vec2.mk.injEq]
  tauto

theorem vertexMemcmpEq_self (x : Vertex) : vertexMemcmpEq x x = true :=
  (vertexMemcmpEq_iff x x).mpr rfl

theorem vertexMemcmpEq_ne {x y : Vertex} (h : x ≠ y) : vertexMemcmpEq x y = false := by
  rcases hb : vertexMemcmpEq x y with _ | _
  · rfl
  · exact absurd ((vertexMemcmpEq_iff x y).mp hb) h

namespace Part000

theorem WF_init : WF initState := by
  constructor
  · simp [initState]
  · intro v i
    simp [initState, lookupU]

theorem lookupU_of_mem {s : DedupState} (hwf : WF s) {v : Vertex}
    (hv : v ∈ s.vertices) :
    lookupU s.uniqueVertices v = some (idxOf v s.vertices % U32MOD) :=
  (hwf.2 v _).mpr ⟨hv, rfl⟩

theorem lookupU_of_not_mem {s : DedupState} (hwf : WF s) {v : Vertex}
    (hv : v ∉ s.vertices) : lookupU s.uniqueVertices v = none := by
  rcases h : lookupU s.uniqueVertices v with _ | i
  · rfl
  · exact absurd ((hwf.2 v i).mp h).1 hv

theorem dedupInsert_mem {s : DedupState} (hwf : WF s) {v : Vertex}
    (hv : v ∈ s.vertices) :
    dedupInsert s v = { s with indices := s.indices ++ [idxOf v s.vertices % U32MOD] } := by
  unfold dedupInsert
  rw [lookupU_of_mem hwf hv]

theorem dedupInsert_not_mem {s : DedupState} (hwf : WF s) {v : Vertex}
    (hv : v ∉ s.vertices) :
    dedupInsert s v =
      { vertices := s.vertices ++ [v]
        indices := s.indices ++ [s.vertices.length % U32MOD]
        uniqueVertices := (v, s.vertices.length % U32MOD) :: s.uniqueVertices } := by
  unfold dedupInsert
  rw [lookupU_of_not_mem hwf hv]

theorem WF_dedupInsert {s : DedupState} (hwf : WF s) (v : Vertex) :
    WF (dedupInsert s v) := by
  by_cases hv : v ∈ s.vertices
  · rw [dedupInsert_mem hwf hv]
    exact ⟨hwf.1, hwf.2⟩
  · rw [dedupInsert_not_mem hwf hv]
    constructor
    · simpa [List.nodup_append] using ⟨hwf.1, hv⟩
    · intro w i
      show lookupU ((v, s.vertices.length % U32MOD) :: s.uniqueVertices) w = some i ↔ _
      by_cases hw : v = w
      · subst hw
        simp only [lookupU, vertexMemcmpEq_self, if_pos]
        constructor
        · rintro ⟨rfl⟩
          refine ⟨by simp, ?_⟩
          rw [idxOf_append_new hv]
        · rintro ⟨-, rfl⟩
          rw [idxOf_append_new hv]
      · simp only [lookupU, vertexMemcmpEq_ne hw, if_neg, Bool.false_eq_true,
          if_false]
        rw [hwf.2 w i]
        have hmem : w ∈ s.vertices ++ [v] ↔ w ∈ s.vertices := by
          constructor
          · intro h
            rcases List.mem_append.mp h with h' | h'
            · exact h'
            · exact absurd (List.mem_singleton.mp h') fun h'' => hw h''.symm
          · intro h
            exact List.mem_append.mpr (Or.inl h)
        constructor
        · rintro ⟨hmw, rfl⟩
          exact ⟨hmem.mpr hmw, by rw [idxOf_append_left _ hmw]⟩
        · rintro ⟨hmw, rfl⟩
          have hmw' := hmem.mp hmw
          exact ⟨hmw', by rw [idxOf_append_left _ hmw']⟩

/-- The dedup loop, run from any well-formed state, stays well-formed and
appends exactly `newUniq`/`newIdxs` to its vertex and index vectors. -/
theorem processList_spec : ∀ (l : List Vertex) (s : DedupState), WF s →
    WF (processList s l) ∧
    (processList s l).vertices = s.vertices ++ newUniq s.vertices l ∧
    (processList s l).indices = s.indices ++ newIdxs s.vertices l
  | [], s, hwf => by
    refine ⟨hwf, ?_, ?_⟩ <;> simp [processList, newUniq, newIdxs]
  | v :: l, s, hwf => by
    have hrec : processList s (v :: l) = processList (dedupInsert s v) l := rfl
    by_cases hv : v ∈ s.vertices
    · have hstep := dedupInsert_mem hwf hv
      have hwf' : WF (dedupInsert s v) := WF_dedupInsert hwf v
      obtain ⟨h1, h2, h3⟩ := processList_spec l (dedupInsert s v) hwf'
      refine ⟨hrec ▸ h1, ?_, ?_⟩
      · rw [hrec, h2, hstep]
        simp [newUniq, hv]
      · rw [hrec, h3, hstep]
        simp [newIdxs, hv, List.append_assoc]
    · have hstep := dedupInsert_not_mem hwf hv
      have hwf' : WF (dedupInsert s v) := WF_dedupInsert hwf v
      obtain ⟨h1, h2, h3⟩ := processList_spec l (dedupInsert s v) hwf'
      refine ⟨hrec ▸ h1, ?_, ?_⟩
      · rw [hrec, h2, hstep]
        simp [newUniq, hv, List.append_assoc]
      · rw [hrec, h3, hstep]
        simp [newIdxs, hv, List.append_assoc]

theorem dedupCore_wf (l : List Vertex) : WF (dedupCore l) :=
  (processList_spec l initState WF_init).1

theorem dedupCore_vertices (l : List Vertex) :
    (dedupCore l).vertices = newUniq [] l := by
  have h := (processList_spec l initState WF_init).2.1
  simpa [initState] using h

theorem dedupCore_indices (l : List Vertex) :
    (dedupCore l).indices = newIdxs [] l := by
  have h := (processList_spec l initState WF_init).2.2
  simpa [initState] using h

theorem mem_append_newUniq : ∀ (l seen : List Vertex) (v : Vertex),
    v ∈ seen ++ newUniq seen l ↔ v ∈ seen ∨ v ∈ l
  | [], seen, v => by simp [newUniq]
  | w :: l, seen, v => by
    by_cases hw : w ∈ seen
    · rw [show newUniq seen (w :: l) = newUniq seen l from by simp [newUniq, hw]]
      rw [mem_append_newUniq l seen v]
      constructor
      · rintro (h | h)
        · exact Or.inl h
        · exact Or.inr (List.mem_cons_of_mem w h)
      · rintro (h | h)
        · exact Or.inl h
        · rcases List.mem_cons.mp h with rfl | h'
          · exact Or.inl hw
          · exact Or.inr h'
    · rw [show newUniq seen (w :: l) = w :: newUniq (seen ++ [w]) l from by
        simp [newUniq, hw]]
      have : seen ++ w :: newUniq (seen ++ [w]) l =
          (seen ++ [w]) ++ newUniq (seen ++ [w]) l := by
        simp [List.append_assoc]
      rw [this, mem_append_newUniq l (seen ++ [w]) v]
      simp [List.mem_append, or_assoc, List.mem_cons]

theorem newIdxs_length : ∀ (l seen : List Vertex),
    (newIdxs seen l).length = l.length
  | [], _ => by simp [newIdxs]
  | v :: l, seen => by
    by_cases hv : v ∈ seen <;>
      simp [newIdxs, hv, newIdxs_length l]

theorem newUniq_length_le : ∀ (l seen : List Vertex),
    (newUniq seen l).length ≤ l.length
  | [], _ => by simp [newUniq]
  | v :: l, seen => by
    by_cases hv : v ∈ seen
    · simp only [newUniq, hv, if_true, List.length_cons]
      exact Nat.le_succ_of_le (newUniq_length_le l seen)
    · simp only [newUniq, hv, if_false, List.length_cons]
      exact Nat.succ_le_succ (newUniq_length_le l (seen ++ [v]))

theorem newUniq_length_eq_iff : ∀ (l seen : List Vertex),
    (newUniq seen l).length = l.length ↔ l.Nodup ∧ ∀ v ∈ l, v ∉ seen
  | [], seen => by simp [newUniq]
  | v :: l, seen => by
    by_cases hv : v ∈ seen
    · simp only [newUniq, hv, if_true, List.length_cons]
      constructor
      · intro h
        exact absurd h (Nat.ne_of_lt (Nat.lt_succ_of_le (newUniq_length_le l seen)))
      · rintro ⟨-, hall⟩
        exact absurd hv (hall v (List.mem_cons_self v l))
    · simp only [newUniq, hv, if_false, List.length_cons, Nat.succ.injEq]
      rw [newUniq_length_eq_iff l (seen ++ [v])]
      constructor
      · rintro ⟨hnd, hall⟩
        refine ⟨List.nodup_cons.mpr ⟨?_, hnd⟩, ?_⟩
        · intro hvl
          have := hall v hvl
          simp [List.mem_append] at this
        · intro w hw
          rcases List.mem_cons.mp hw with rfl | hw'
          · exact hv
          · intro hws
            exact hall w hw' (List.mem_append.mpr (Or.inl hws))
      · rintro ⟨hnd, hall⟩
        obtain ⟨hvnl, hnd'⟩ := List.nodup_cons.mp hnd
        refine ⟨hnd', ?_⟩
        intro w hw hws
        rcases List.mem_append.mp hws with h' | h'
        · exact hall w (List.mem_cons_of_mem v hw) h'
        · rcases List.mem_singleton.mp h' with rfl
          exact hvnl hw

theorem replay_newIdxs : ∀ (l seen : List Vertex),
    (seen ++ newUniq seen l).length ≤ U32MOD →
    replay (seen ++ newUniq seen l) (newIdxs seen l) = some l
  | [], seen, _ => by simp [newUniq, newIdxs, replay]
  | v :: l, seen, hle => by
    by_cases hv : v ∈ seen
    · have hnu : newUniq seen (v :: l) = newUniq seen l := by simp [newUniq, hv]
      have hni : newIdxs seen (v :: l) =
          (idxOf v seen % U32MOD) :: newIdxs seen l := by simp [newIdxs, hv]
      rw [hnu] at hle
      have hlt : idxOf v seen < seen.length := idxOf_lt_length hv
      have hltf : idxOf v seen < (seen ++ newUniq seen l).length :=
        Nat.lt_of_lt_of_le hlt (by simp)
      have hmod : idxOf v seen % U32MOD = idxOf v seen :=
        Nat.mod_eq_of_lt (Nat.lt_of_lt_of_le hltf hle)
      have hget : (seen ++ newUniq seen l).get? (idxOf v seen) = some v := by
        rw [List.get?_append hlt]
        exact get?_idxOf hv
      rw [hnu, hni]
      simp only [replay, hmod, hget, replay_newIdxs l seen hle, Option.bind_eq_bind,
        Option.some_bind]
      rfl
    · have hnu : newUniq seen (v :: l) = v :: newUniq (seen ++ [v]) l := by
        simp [newUniq, hv]
      have hni : newIdxs seen (v :: l) =
          (seen.length % U32MOD) :: newIdxs (seen ++ [v]) l := by
        simp [newIdxs, hv]
      have hassoc : seen ++ v :: newUniq (seen ++ [v]) l =
          (seen ++ [v]) ++ newUniq (seen ++ [v]) l := by
        simp [List.append_assoc]
      rw [hnu, hassoc] at hle ⊢
      have hslt : seen.length < ((seen ++ [v]) ++ newUniq (seen ++ [v]) l).length := by
        simp
      have hmod : seen.length % U32MOD = seen.length :=
        Nat.mod_eq_of_lt (Nat.lt_of_lt_of_le hslt hle)
      have hget : ((seen ++ [v]) ++ newUniq (seen ++ [v]) l).get? seen.length = some v := by
        have h1 : seen.length < (seen ++ [v]).length := by simp
        rw [List.get?_append h1]
        simp [List.get?_append_right]
      rw [hni]
      simp only [replay, hmod, hget, replay_newIdxs l (seen ++ [v]) hle,
        Option.bind_eq_bind, Option.some_bind]
      rfl

theorem newIdxs_bound : ∀ (l seen : List Vertex), ∀ i ∈ newIdxs seen l,
    ∃ x, i = x % U32MOD ∧ x < (seen ++ newUniq seen l).length
  | [], _, i, hi => by simp [newIdxs] at hi
  | v :: l, seen, i, hi => by
    by_cases hv : v ∈ seen
    · rw [show newIdxs seen (v :: l) = (idxOf v seen % U32MOD) :: newIdxs seen l
        from by simp [newIdxs, hv]] at hi
      rw [show newUniq seen (v :: l) = newUniq seen l from by simp [newUniq, hv]]
      rcases List.mem_cons.mp hi with rfl | hi'
      · exact ⟨idxOf v seen, rfl,
          Nat.lt_of_lt_of_le (idxOf_lt_length hv) (by simp)⟩
      · exact newIdxs_bound l seen i hi'
    · rw [show newIdxs seen (v :: l) =
          (seen.length % U32MOD) :: newIdxs (seen ++ [v]) l
        from by simp [newIdxs, hv]] at hi
      have hassoc : seen ++ newUniq seen (v :: l) =
          (seen ++ [v]) ++ newUniq (seen ++ [v]) l := by
        simp [newUniq, hv, List.append_assoc]
      rw [hassoc]
      rcases List.mem_cons.mp hi with rfl | hi'
      · exact ⟨seen.length, rfl, by simp⟩
      · exact newIdxs_bound l (seen ++ [v]) i hi'

theorem processList_append (st : DedupState) (l r : List Vertex) :
    processList st (l ++ r) = processList (processList st l) r := by
  simp [processList, List.foldl_append]

theorem dedupCore_append_singleton (p : List Vertex) (v : Vertex) :
    dedupCore (p ++ [v]) = dedupInsert (dedupCore p) v := by
  simp [dedupCore, processList_append, processList]

theorem mem_dedupCore_vertices (p : List Vertex) (v : Vertex) :
    v ∈ (dedupCore p).vertices ↔ v ∈ p := by
  rw [dedupCore_vertices]
  have := mem_append_newUniq p [] v
  simpa using this


/-- The interleaved resolve-and-dedup face loop factors through the resolved
corner stream: it equals resolving all corners first, then running the dedup
loop over them. -/
theorem buildFaces_eq (a : Attrib) (inds : List ObjIndex) :
    ∀ (n off : Nat) (st : DedupState),
      buildFaces a inds n off st =
        (faceStream a inds n off).map (fun l => processList st l)
  | 0, off, st => by simp [buildFaces, faceStream, processList]
  | n + 1, off, st => by
    unfold buildFaces faceStream
    cases h0 : inds.get? (off + 0) with
    | none => rfl
    | some i0 =>
      simp only [Option.bind_eq_bind, Option.some_bind]
      cases hv0 : resolveCorner a i0 with
      | none => rfl
      | some v0 =>
        simp only [Option.some_bind]
        cases h1 : inds.get? (off + 1) with
        | none => rfl
        | some i1 =>
          simp only [Option.some_bind]
          cases hv1 : resolveCorner a i1 with
          | none => rfl
          | some v1 =>
            simp only [Option.some_bind]
            cases h2 : inds.get? (off + 2) with
            | none => rfl
            | some i2 =>
              simp only [Option.some_bind]
              cases hv2 : resolveCorner a i2 with
              | none => rfl
              | some v2 =>
                simp only [Option.some_bind]
                rw [buildFaces_eq a inds n (off + 3)]
                cases hrest : faceStream a inds n (off + 3) with
                | none => rfl
                | some rest => rfl

/-- The shape loop of `part_000` factors through the full resolved corner
stream. -/
theorem buildShapes_eq (a : Attrib) :
    ∀ (ss : List Shape) (st : DedupState),
      buildShapes a ss st =
        (shapesStream a ss).map (fun l => processList st l)
  | [], st => by simp [buildShapes, shapesStream, processList]
  | s :: rest, st => by
    unfold buildShapes shapesStream
    rw [buildFaces_eq a s.mesh.indices s.mesh.num_face_vertices.length 0 st]
    cases hl : faceStream a s.mesh.indices s.mesh.num_face_vertices.length 0 with
    | none => rfl
    | some l =>
      simp only [Option.map_some', Option.map_some, Option.bind_eq_bind,
        Option.some_bind]
      rw [buildShapes_eq a rest (processList st l)]
      cases hr : shapesStream a rest with
      | none => rfl
      | some r =>
        simp only [Option.map_some', Option.map_some, Option.some_bind,
          Option.pure_def]
        rw [processList_append]

theorem faceStream_length (a : Attrib) (inds : List ObjIndex) :
    ∀ (n off : Nat) (l : List Vertex),
      faceStream a inds n off = some l → l.length = 3 * n
  | 0, off, l, h => by
    simp only [faceStream, Option.some.injEq] at h
    subst h
    simp
  | n + 1, off, l, h => by
    unfold faceStream at h
    rcases h0 : inds.get? (off + 0) with _ | i0 <;> rw [h0] at h
    · exact absurd h (by simp)
    simp only [Option.bind_eq_bind, Option.some_bind] at h
    rcases hv0 : resolveCorner a i0 with _ | v0 <;> rw [hv0] at h
    · exact absurd h (by simp)
    simp only [Option.some_bind] at h
    rcases h1 : inds.get? (off + 1) with _ | i1 <;> rw [h1] at h
    · exact absurd h (by simp)
    simp only [Option.some_bind] at h
    rcases hv1 : resolveCorner a i1 with _ | v1 <;> rw [hv1] at h
    · exact absurd h (by simp)
    simp only [Option.some_bind] at h
    rcases h2 : inds.get? (off + 2) with _ | i2 <;> rw [h2] at h
    · exact absurd h (by simp)
    simp only [Option.some_bind] at h
    rcases hv2 : resolveCorner a i2 with _ | v2 <;> rw [hv2] at h
    · exact absurd h (by simp)
    simp only [Option.some_bind] at h
    rcases hrest : faceStream a inds n (off + 3) with _ | rest <;> rw [hrest] at h
    · exact absurd h (by simp)
    simp only [Option.some_bind, Option.pure_def, Option.some.injEq] at h
    have hr := faceStream_length a inds n (off + 3) rest hrest
    subst h
    simp only [List.length_cons, hr]
    ring

theorem shapesStream_length (a : Attrib) :
    ∀ (ss : List Shape) (l : List Vertex),
      shapesStream a ss = some l → l.length = 3 * totalFaces ss
  | [], l, h => by
    simp only [shapesStream, Option.some.injEq] at h
    subst h
    simp [totalFaces]
  | s :: rest, l, h => by
    unfold shapesStream at h
    rcases hl : faceStream a s.mesh.indices s.mesh.num_face_vertices.length 0
      with _ | l₁ <;> rw [hl] at h
    · exact absurd h (by simp)
    simp only [Option.bind_eq_bind, Option.some_bind] at h
    rcases hr : shapesStream a rest with _ | l₂ <;> rw [hr] at h
    · exact absurd h (by simp)
    simp only [Option.some_bind, Option.pure_def, Option.some.injEq] at h
    have h1 := faceStream_length a s.mesh.indices s.mesh.num_face_vertices.length 0 l₁ hl
    have h2 := shapesStream_length a rest l₂ hr
    subst h
    simp only [List.length_append, h1, h2, totalFaces, List.map_cons, List.sum_cons]
    ring

theorem faceStream_mem (a : Attrib) (inds : List ObjIndex) :
    ∀ (n off : Nat) (l : List Vertex),
      faceStream a inds n off = some l →
      ∀ v ∈ l, ∃ idx, resolveCorner a idx = some v
  | 0, off, l, h => by
    simp only [faceStream, Option.some.injEq] at h
    subst h
    simp
  | n + 1, off, l, h => by
    unfold faceStream at h
    rcases h0 : inds.get? (off + 0) with _ | i0 <;> rw [h0] at h
    · exact absurd h (by simp)
    simp only [Option.bind_eq_bind, Option.some_bind] at h
    rcases hv0 : resolveCorner a i0 with _ | v0 <;> rw [hv0] at h
    · exact absurd h (by simp)
    simp only [Option.some_bind] at h
    rcases h1 : inds.get? (off + 1) with _ | i1 <;> rw [h1] at h
    · exact absurd h (by simp)
    simp only [Option.some_bind] at h
    rcases hv1 : resolveCorner a i1 with _ | v1 <;> rw [hv1] at h
    · exact absurd h (by simp)
    simp only [Option.some_bind] at h
    rcases h2 : inds.get? (off + 2) with _ | i2 <;> rw [h2] at h
    · exact absurd h (by simp)
    simp only [Option.some_bind] at h
    rcases hv2 : resolveCorner a i2 with _ | v2 <;> rw [hv2] at h
    · exact absurd h (by simp)
    simp only [Option.some_bind] at h
    rcases hrest : faceStream a inds n (off + 3) with _ | rest <;> rw [hrest] at h
    · exact absurd h (by simp)
    simp only [Option.some_bind, Option.pure_def, Option.some.injEq] at h
    subst h
    intro v hv
    rcases List.mem_cons.mp hv with rfl | hv'
    · exact ⟨i0, hv0⟩
    rcases List.mem_cons.mp hv' with rfl | hv''
    · exact ⟨i1, hv1⟩
    rcases List.mem_cons.mp hv'' with rfl | hv'''
    · exact ⟨i2, hv2⟩
    · exact faceStream_mem a inds n (off + 3) rest hrest v hv'''

theorem shapesStream_mem (a : Attrib) :
    ∀ (ss : List Shape) (l : List Vertex),
      shapesStream a ss = some l →
      ∀ v ∈ l, ∃ idx, resolveCorner a idx = some v
  | [], l, h => by
    simp only [shapesStream, Option.some.injEq] at h
    subst h
    simp
  | s :: rest, l, h => by
    unfold shapesStream at h
    rcases hl : faceStream a s.mesh.indices s.mesh.num_face_vertices.length 0
      with _ | l₁ <;> rw [hl] at h
    · exact absurd h (by simp)
    simp only [Option.bind_eq_bind, Option.some_bind] at h
    rcases hr : shapesStream a rest with _ | l₂ <;> rw [hr] at h
    · exact absurd h (by simp)
    simp only [Option.some_bind, Option.pure_def, Option.some.injEq] at h
    subst h
    intro v hv
    rcases List.mem_append.mp hv with hv' | hv'
    · exact faceStream_mem a s.mesh.indices _ 0 l₁ hl v hv'
    · exact shapesStream_mem a rest l₂ hr v hv'

/-- `part_000`'s `loadOBJ` on successfully parsed data returns a mesh exactly
when the whole corner stream resolves, and the mesh is the dedup of that
stream. -/
theorem loadOBJ_ok_iff (d : ObjData) (m : Mesh) :
    loadOBJ (some d) = .ok m ↔
      ∃ stream, shapesStream d.attrib d.shapes = some stream ∧
        m = { vertices := (dedupCore stream).vertices
              indices := (dedupCore stream).indices
              vertexCount := (dedupCore stream).vertices.length % U32MOD
              indexCount := (dedupCore stream).indices.length % U32MOD } := by
  cases hs : shapesStream d.attrib d.shapes with
  | none =>
    have hb : buildShapes d.attrib d.shapes initState = none := by
      rw [buildShapes_eq, hs]
      rfl
    simp only [loadOBJ, hb]
    constructor
    · intro h
      exact Res.noConfusion h
    · rintro ⟨stream, hstream, -⟩
      exact Option.noConfusion hstream
  | some stream =>
    have hb : buildShapes d.attrib d.shapes initState = some (dedupCore stream) := by
      rw [buildShapes_eq, hs]
      rfl
    simp only [loadOBJ, hb]
    constructor
    · intro h
      cases h
      exact ⟨stream, rfl, rfl⟩
    · rintro ⟨stream', hstream', rfl⟩
      have hss : stream = stream' := Option.some.inj hstream'
      subst hss
      rfl

end Part000

theorem resolveCornerWith_congr (fb fb' : vec3) (a : Attrib) (idx : ObjIndex)
    (hn : a.normals ≠ [] ∧ 0 ≤ idx.normal_index) :
    resolveCornerWith fb a idx = resolveCornerWith fb' a idx := by
  unfold resolveCornerWith
  cases hp : readVec3 a.vertices (3 * idx.vertex_index) with
  | none => rfl
  | some p =>
    simp only [Option.some_bind]
    rw [if_pos hn, if_pos hn]

theorem resolveCornerWith_normal_fallback (fb : vec3) (a : Attrib)
    (idx : ObjIndex) (v : Vertex) (ha : a.normals = [])
    (h : resolveCornerWith fb a idx = some v) : v.normal = fb := by
  unfold resolveCornerWith at h
  rcases hp : readVec3 a.vertices (3 * idx.vertex_index) with _ | p <;> rw [hp] at h
  · exact Option.noConfusion h
  simp only [Option.some_bind] at h
  rw [if_neg (by simp [ha])] at h
  simp only [Option.some_bind] at h
  rcases ht : (if a.texcoords ≠ [] ∧ 0 ≤ idx.texcoord_index then
      readVec2 a.texcoords (2 * idx.texcoord_index)
    else some ⟨F0, F0⟩) with _ | t <;> rw [ht] at h
  · exact Option.noConfusion h
  simp only [Option.some_bind, Option.some.injEq] at h
  subst h
  rfl

theorem resolveCornerWith_texcoord_fallback (fb : vec3) (a : Attrib)
    (idx : ObjIndex) (v : Vertex) (ha : a.texcoords = [])
    (h : resolveCornerWith fb a idx = some v) : v.texcoords = ⟨F0, F0⟩ := by
  unfold resolveCornerWith at h
  rcases hp : readVec3 a.vertices (3 * idx.vertex_index) with _ | p <;> rw [hp] at h
  · exact Option.noConfusion h
  simp only [Option.some_bind] at h
  rcases hn : (if a.normals ≠ [] ∧ 0 ≤ idx.normal_index then
      readVec3 a.normals (3 * idx.normal_index)
    else some fb) with _ | n <;> rw [hn] at h
  · exact Option.noConfusion h
  simp only [Option.some_bind] at h
  rw [if_neg (by simp [ha])] at h
  simp only [Option.some_bind, Option.some.injEq] at h
  subst h
  rfl

namespace MainCpp

/-- Inversion of a successful face-loop step of `main.cpp`: the face was a
triangle, its three corners read and resolved, and the rest succeeded. -/
theorem buildFaces_ok_inv (a : Attrib) (inds : List ObjIndex)
    (fv : Nat) (fvs : List Nat) (off : Nat) (l : List Vertex)
    (h : buildFaces a inds (fv :: fvs) off = .ok l) :
    fv = 3 ∧ ∃ i0 v0 i1 v1 i2 v2 rest,
      inds.get? (off + 0) = some i0 ∧ resolveCorner a i0 = some v0 ∧
      inds.get? (off + 1) = some i1 ∧ resolveCorner a i1 = some v1 ∧
      inds.get? (off + 2) = some i2 ∧ resolveCorner a i2 = some v2 ∧
      buildFaces a inds fvs (off + 3) = .ok rest ∧
      l = v0 :: v1 :: v2 :: rest := by
  by_cases h3 : fv = 3
  · subst h3
    refine ⟨rfl, ?_⟩
    simp only [buildFaces, ne_eq, not_true_eq_false, if_false] at h
    rcases h0 : inds.get? (off + 0) with _ | i0 <;> rw [h0] at h
    · exact Res.noConfusion h
    simp only [bindRead] at h
    rcases hv0 : resolveCorner a i0 with _ | v0 <;> rw [hv0] at h
    · exact Res.noConfusion h
    simp only [bindRead] at h
    rcases h1 : inds.get? (off + 1) with _ | i1 <;> rw [h1] at h
    · exact Res.noConfusion h
    simp only [bindRead] at h
    rcases hv1 : resolveCorner a i1 with _ | v1 <;> rw [hv1] at h
    · exact Res.noConfusion h
    simp only [bindRead] at h
    rcases h2 : inds.get? (off + 2) with _ | i2 <;> rw [h2] at h
    · exact Res.noConfusion h
    simp only [bindRead] at h
    rcases hv2 : resolveCorner a i2 with _ | v2 <;> rw [hv2] at h
    · exact Res.noConfusion h
    simp only [bindRead] at h
    rcases hrest : buildFaces a inds fvs (off + 3) with rest | msg | _ <;>
      rw [hrest] at h
    · simp only [rmap, Res.ok.injEq] at h
      exact ⟨i0, v0, i1, v1, i2, v2, rest, rfl, hv0, rfl, hv1, rfl, hv2, rfl, h.symm⟩
    · exact Res.noConfusion h
    · exact Res.noConfusion h
  · rw [show buildFaces a inds (fv :: fvs) off =
        .thrown "Non-triangle face detected." from by
      simp [buildFaces, h3]] at h
    exact Res.noConfusion h

/-- A face record with corner count different from 3 makes the strict face
loop throw immediately, whatever the corner data. -/
theorem buildFaces_nontriangle (a : Attrib) (inds : List ObjIndex)
    (fv : Nat) (fvs : List Nat) (off : Nat) (h3 : fv ≠ 3) :
    buildFaces a inds (fv :: fvs) off = .thrown "Non-triangle face detected." := by
  simp [buildFaces, h3]

/-- A successful strict face loop implies every face record was a triangle. -/
theorem buildFaces_ok_all3 (a : Attrib) (inds : List ObjIndex) :
    ∀ (fvs : List Nat) (off : Nat) (l : List Vertex),
      buildFaces a inds fvs off = .ok l → ∀ fv ∈ fvs, fv = 3
  | [], _, _, _ => by simp
  | fv :: fvs, off, l, h => by
    obtain ⟨h3, i0, v0, i1, v1, i2, v2, rest, -, -, -, -, -, -, hrest, -⟩ :=
      buildFaces_ok_inv a inds fv fvs off l h
    intro fv' hfv'
    rcases List.mem_cons.mp hfv' with rfl | hmem
    · exact h3
    · exact buildFaces_ok_all3 a inds fvs (off + 3) rest hrest fv' hmem

/-- A successful strict face loop produces exactly the resolved corner
stream of its faces. -/
theorem buildFaces_ok_cornerStream (a : Attrib) (inds : List ObjIndex) :
    ∀ (fvs : List Nat) (off : Nat) (l : List Vertex),
      buildFaces a inds fvs off = .ok l →
      cornerStream a inds fvs.length off = some l
  | [], _, l, h => by
    simp only [buildFaces] at h
    cases h
    rfl
  | fv :: fvs, off, l, h => by
    obtain ⟨h3, i0, v0, i1, v1, i2, v2, rest, h0, hv0, h1, hv1, h2, hv2, hrest, rfl⟩ :=
      buildFaces_ok_inv a inds fv fvs off l h
    have ih := buildFaces_ok_cornerStream a inds fvs (off + 3) rest hrest
    simp only [List.length_cons, cornerStream, h0, hv0, h1, hv1, h2, hv2, ih,
      Option.bind_eq_bind, Option.some_bind, Option.pure_def]

end MainCpp

namespace MainCpp

/-- A successful strict shape loop implies every face record of every shape
was a triangle. -/
theorem buildShapes_ok_all3 (a : Attrib) :
    ∀ (ss : List Shape) (vs : List Vertex),
      buildShapes a ss = .ok vs →
      ∀ s ∈ ss, ∀ fv ∈ s.mesh.num_face_vertices, fv = 3
  | [], _, _ => by simp
  | s :: rest, vs, h => by
    unfold buildShapes at h
    rcases hf : buildFaces a s.mesh.indices s.mesh.num_face_vertices 0
      with l | msg | _ <;> rw [hf] at h
    · simp only [rbind] at h
      rcases hr : buildShapes a rest with r | msg | _ <;> rw [hr] at h
      · intro s' hs' fv hfv
        rcases List.mem_cons.mp hs' with rfl | hmem
        · exact buildFaces_ok_all3 a s'.mesh.indices s'.mesh.num_face_vertices
            0 l hf fv hfv
        · exact buildShapes_ok_all3 a rest r hr s' hmem fv hfv
      · exact Res.noConfusion h
      · exact Res.noConfusion h
    · exact Res.noConfusion h
    · exact Res.noConfusion h

/-- Inversion of a successful `main.cpp` load: the mesh packages the result
of the shape loop. -/
theorem loadOBJ_ok_inv (d : ObjData) (m : Mesh)
    (h : loadOBJ (some d) = .ok m) :
    buildShapes d.attrib d.shapes = .ok m.vertices := by
  simp only [loadOBJ] at h
  rcases hb : buildShapes d.attrib d.shapes with vs | msg | _ <;> rw [hb] at h
  · simp only [rmap, Res.ok.injEq] at h
    rw [← h]
  · exact Res.noConfusion h
  · exact Res.noConfusion h

end MainCpp

/-- On a shape whose scanned corners all carry non-negative normal indices
(and with a non-empty normals array), `part_000`'s resolved corner stream
coincides with `main.cpp`'s: the fallback normal (the only difference
between the two loaders' resolutions) is never consulted. -/
theorem faceStream_eq_cornerStream (a : Attrib) (inds : List ObjIndex)
    (hn : a.normals ≠ []) :
    ∀ (n off : Nat),
      (∀ k, off ≤ k → k < off + 3 * n → ∀ idx, inds.get? k = some idx →
        0 ≤ idx.normal_index) →
      Part000.faceStream a inds n off = MainCpp.cornerStream a inds n off
  | 0, off, _ => by simp [Part000.faceStream, MainCpp.cornerStream]
  | n + 1, off, hk => by
    unfold Part000.faceStream MainCpp.cornerStream
    cases h0 : inds.get? (off + 0) with
    | none => rfl
    | some i0 =>
      simp only [Option.bind_eq_bind, Option.some_bind]
      have hres0 : Part000.resolveCorner a i0 = MainCpp.resolveCorner a i0 :=
        resolveCornerWith_congr _ _ a i0
          ⟨hn, hk (off + 0) (by omega) (by omega) i0 h0⟩
      rw [← hres0]
      cases hv0 : Part000.resolveCorner a i0 with
      | none => rfl
      | some v0 =>
        simp only [Option.some_bind]
        cases h1 : inds.get? (off + 1) with
        | none => rfl
        | some i1 =>
          simp only [Option.some_bind]
          have hres1 : Part000.resolveCorner a i1 = MainCpp.resolveCorner a i1 :=
            resolveCornerWith_congr _ _ a i1
              ⟨hn, hk (off + 1) (by omega) (by omega) i1 h1⟩
          rw [← hres1]
          cases hv1 : Part000.resolveCorner a i1 with
          | none => rfl
          | some v1 =>
            simp only [Option.some_bind]
            cases h2 : inds.get? (off + 2) with
            | none => rfl
            | some i2 =>
              simp only [Option.some_bind]
              have hres2 : Part000.resolveCorner a i2 = MainCpp.resolveCorner a i2 :=
                resolveCornerWith_congr _ _ a i2
                  ⟨hn, hk (off + 2) (by omega) (by omega) i2 h2⟩
              rw [← hres2]
              cases hv2 : Part000.resolveCorner a i2 with
              | none => rfl
              | some v2 =>
                simp only [Option.some_bind]
                rw [faceStream_eq_cornerStream a inds hn n (off + 3)
                  (fun k hk1 hk2 idx hidx => hk k (by omega) (by omega) idx hidx)]

/-- A successful `main.cpp` shape loop, on data whose scanned corners all
carry non-negative normal indices and whose normals array is non-empty,
produces exactly `part_000`'s resolved corner stream. -/
theorem flat_ok_shapesStream (a : Attrib) (hn : a.normals ≠ []) :
    ∀ (ss : List Shape) (vs : List Vertex),
      (∀ s ∈ ss, ∀ k, k < 3 * s.mesh.num_face_vertices.length → ∀ idx,
        s.mesh.indices.get? k = some idx → 0 ≤ idx.normal_index) →
      MainCpp.buildShapes a ss = .ok vs →
      Part000.shapesStream a ss = some vs
  | [], vs, _, h => by
    simp only [MainCpp.buildShapes] at h
    cases h
    rfl
  | s :: rest, vs, hprem, h => by
    unfold MainCpp.buildShapes at h
    rcases hf : MainCpp.buildFaces a s.mesh.indices s.mesh.num_face_vertices 0
      with l | msg | _ <;> rw [hf] at h
    · simp only [rbind] at h
      rcases hr : MainCpp.buildShapes a rest with r | msg | _ <;> rw [hr] at h
      · simp only [rmap, Res.ok.injEq] at h
        have hcs := MainCpp.buildFaces_ok_cornerStream a s.mesh.indices
          s.mesh.num_face_vertices 0 l hf
        have hfs : Part000.faceStream a s.mesh.indices
            s.mesh.num_face_vertices.length 0 = some l := by
          rw [faceStream_eq_cornerStream a s.mesh.indices hn
            s.mesh.num_face_vertices.length 0
            (fun k _ hk2 idx hidx =>
              hprem s (List.mem_cons_self s rest) k (by omega) idx hidx)]
          exact hcs
        have hrs := flat_ok_shapesStream a hn rest r
          (fun s' hs' => hprem s' (List.mem_cons_of_mem s hs')) hr
        unfold Part000.shapesStream
        rw [hfs]
        simp only [Option.bind_eq_bind, Option.some_bind, hrs, Option.pure_def]
        rw [h]
      · exact Res.noConfusion h
      · exact Res.noConfusion h
    · exact Res.noConfusion h
    · exact Res.noConfusion h

/-- When some corner of the stream fails to resolve (an out-of-range,
unchecked vector read), `part_000`'s whole load is undefined behaviour:
no exception is thrown and no mesh is produced. -/
theorem Part000_loadOBJ_ub (d : ObjData)
    (hs : Part000.shapesStream d.attrib d.shapes = none) :
    Part000.loadOBJ (some d) = .ub := by
  have hb : Part000.buildShapes d.attrib d.shapes Part000.initState = none := by
    rw [Part000.buildShapes_eq, hs]
    rfl
  simp [Part000.loadOBJ, hb]

namespace MainCpp

/-- Every vertex emitted by a successful strict face loop is the resolution
of some corner record. -/
theorem buildFaces_ok_mem (a : Attrib) (inds : List ObjIndex) :
    ∀ (fvs : List Nat) (off : Nat) (l : List Vertex),
      buildFaces a inds fvs off = .ok l →
      ∀ v ∈ l, ∃ idx, resolveCorner a idx = some v
  | [], _, l, h => by
    simp only [buildFaces] at h
    cases h
    simp
  | fv :: fvs, off, l, h => by
    obtain ⟨h3, i0, v0, i1, v1, i2, v2, rest, h0, hv0, h1, hv1, h2, hv2, hrest, rfl⟩ :=
      buildFaces_ok_inv a inds fv fvs off l h
    intro v hv
    rcases List.mem_cons.mp hv with rfl | hv'
    · exact ⟨i0, hv0⟩
    rcases List.mem_cons.mp hv' with rfl | hv''
    · exact ⟨i1, hv1⟩
    rcases List.mem_cons.mp hv'' with rfl | hv'''
    · exact ⟨i2, hv2⟩
    · exact buildFaces_ok_mem a inds fvs (off + 3) rest hrest v hv'''

/-- Every vertex emitted by a successful strict shape loop is the resolution
of some corner record. -/
theorem buildShapes_ok_mem (a : Attrib) :
    ∀ (ss : List Shape) (vs : List Vertex),
      buildShapes a ss = .ok vs →
      ∀ v ∈ vs, ∃ idx, resolveCorner a idx = some v
  | [], vs, h => by
    simp only [buildShapes] at h
    cases h
    simp
  | s :: rest, vs, h => by
    unfold buildShapes at h
    rcases hf : buildFaces a s.mesh.indices s.mesh.num_face_vertices 0
      with l | msg | _ <;> rw [hf] at h
    · simp only [rbind] at h
      rcases hr : buildShapes a rest with r | msg | _ <;> rw [hr] at h
      · simp only [rmap, Res.ok.injEq] at h
        subst h
        intro v hv
        rcases List.mem_append.mp hv with hv' | hv'
        · exact buildFaces_ok_mem a s.mesh.indices _ 0 l hf v hv'
        · exact buildShapes_ok_mem a rest r hr v hv'
      · exact Res.noConfusion h
      · exact Res.noConfusion h
    · exact Res.noConfusion h
    · exact Res.noConfusion h

end MainCpp


/-- **C1**: for every face stream accepted by the deduplicating build
(`loadOBJ` in `part_000`), replaying the returned index sequence against the
returned vertex sequence (mapping each index `i` to `vertices[indices[i]]`,
in order) reproduces exactly, attribute for attribute, the sequence of
resolved corner `Vertex` values (position, normal after fallback, texcoord
after fallback) in the order the corners were scanned.  (Stated under the
natural no-`uint32`-wrap bound on the unique-vertex count.) -/
theorem spec_c1 (d : ObjData) (m : Part000.Mesh)
    (hok : Part000.loadOBJ (some d) = .ok m)
    (hsize : m.vertices.length ≤ U32MOD) :
    ∃ stream, Part000.shapesStream d.attrib d.shapes = some stream ∧
      replay m.vertices m.indices = some stream := by
  obtain ⟨stream, hs, rfl⟩ := (Part000.loadOBJ_ok_iff d m).mp hok
  refine ⟨stream, hs, ?_⟩
  dsimp only at hsize ⊢
  rw [Part000.dedupCore_vertices, Part000.dedupCore_indices] at *
  have hr := Part000.replay_newIdxs stream []
  simp only [List.nil_append] at hr
  exact hr hsize

/-- Closed witness for `spec_c1` at `demoData`. -/
theorem spec_c1_witness :
    Part000.loadOBJ (some demoData) = .ok demoMeshP ∧
    demoMeshP.vertices.length ≤ U32MOD ∧
    (∃ stream, Part000.shapesStream demoData.attrib demoData.shapes = some stream ∧
      replay demoMeshP.vertices demoMeshP.indices = some stream) :=
  ⟨by decide, by decide, spec_c1 demoData demoMeshP (by decide) (by decide)⟩

/-- **C2**: deduplication is global and first-occurrence ordered: a corner
value seen anywhere earlier in the stream is appended as its previously
assigned index with the unique-vertex sequence unchanged; a never-seen value
is assigned the next sequential index (the current unique-vertex count) and
appended.  In particular corners `A, B, A` yield vertices `[A, B]` and
indices `[0, 1, 0]`. -/
theorem spec_c2 :
    (∀ (p : List Vertex) (v : Vertex),
      (Part000.dedupCore p).vertices.length < U32MOD →
      (v ∈ (Part000.dedupCore p).vertices ↔ v ∈ p) ∧
      (v ∈ p →
        (Part000.dedupCore (p ++ [v])).vertices = (Part000.dedupCore p).vertices ∧
        (Part000.dedupCore (p ++ [v])).indices =
          (Part000.dedupCore p).indices ++
            [idxOf v (Part000.dedupCore p).vertices] ∧
        (Part000.dedupCore p).vertices.get?
          (idxOf v (Part000.dedupCore p).vertices) = some v) ∧
      (v ∉ p →
        (Part000.dedupCore (p ++ [v])).vertices =
          (Part000.dedupCore p).vertices ++ [v] ∧
        (Part000.dedupCore (p ++ [v])).indices =
          (Part000.dedupCore p).indices ++
            [(Part000.dedupCore p).vertices.length])) ∧
    (∀ A B : Vertex, A ≠ B →
      (Part000.dedupCore [A, B, A]).vertices = [A, B] ∧
      (Part000.dedupCore [A, B, A]).indices = [0, 1, 0]) := by
  constructor
  · intro p v hlen
    have hwf := Part000.dedupCore_wf p
    have hmem := Part000.mem_dedupCore_vertices p v
    refine ⟨hmem, ?_, ?_⟩
    · intro hvp
      have hv : v ∈ (Part000.dedupCore p).vertices := hmem.mpr hvp
      have hmod : idxOf v (Part000.dedupCore p).vertices % U32MOD =
          idxOf v (Part000.dedupCore p).vertices :=
        Nat.mod_eq_of_lt (Nat.lt_trans (idxOf_lt_length hv) hlen)
      rw [Part000.dedupCore_append_singleton, Part000.dedupInsert_mem hwf hv]
      exact ⟨rfl, by rw [hmod], get?_idxOf hv⟩
    · intro hvp
      have hv : v ∉ (Part000.dedupCore p).vertices := fun h => hvp (hmem.mp h)
      have hmod : (Part000.dedupCore p).vertices.length % U32MOD =
          (Part000.dedupCore p).vertices.length := Nat.mod_eq_of_lt hlen
      rw [Part000.dedupCore_append_singleton, Part000.dedupInsert_not_mem hwf hv]
      exact ⟨rfl, by rw [hmod]⟩
  · intro A B hAB
    have hwf0 := Part000.WF_init
    have h1 : Part000.dedupInsert Part000.initState A =
        ⟨[A], [0], [(A, 0)]⟩ := by
      rw [Part000.dedupInsert_not_mem hwf0 (by simp [Part000.initState])]
      simp [Part000.initState]
    have hwf1 : Part000.WF (⟨[A], [0], [(A, 0)]⟩ : Part000.DedupState) := by
      rw [← h1]
      exact Part000.WF_dedupInsert hwf0 A
    have hm1 : (1 : Nat) % U32MOD = 1 := by norm_num [U32MOD]
    have h2 : Part000.dedupInsert ⟨[A], [0], [(A, 0)]⟩ B =
        ⟨[A, B], [0, 1], [(B, 1), (A, 0)]⟩ := by
      rw [Part000.dedupInsert_not_mem hwf1 (by simp [Ne.symm hAB])]
      simp [hm1]
    have hwf2 : Part000.WF (⟨[A, B], [0, 1], [(B, 1), (A, 0)]⟩ : Part000.DedupState) := by
      rw [← h2]
      exact Part000.WF_dedupInsert hwf1 B
    have hidx : idxOf A [A, B] = 0 := by simp [idxOf]
    have h3 : Part000.dedupInsert ⟨[A, B], [0, 1], [(B, 1), (A, 0)]⟩ A =
        ⟨[A, B], [0, 1, 0], [(B, 1), (A, 0)]⟩ := by
      rw [Part000.dedupInsert_mem hwf2 (by simp)]
      simp [hidx]
    have hcore : Part000.dedupCore [A, B, A] =
        Part000.dedupInsert (Part000.dedupInsert
          (Part000.dedupInsert Part000.initState A) B) A := rfl
    rw [hcore, h1, h2, h3]
    exact ⟨rfl, rfl⟩

/-- Closed witness for `spec_c2` at concrete vertices. -/
theorem spec_c2_witness :
    ((Part000.dedupCore [vPosZero]).vertices.length < U32MOD ∧
      vPosZero ∈ [vPosZero] ∧
      (Part000.dedupCore ([vPosZero] ++ [vPosZero])).vertices =
        (Part000.dedupCore [vPosZero]).vertices) ∧
    (vPosZero ≠ vNegZero ∧
      (Part000.dedupCore [vPosZero, vNegZero, vPosZero]).vertices =
        [vPosZero, vNegZero] ∧
      (Part000.dedupCore [vPosZero, vNegZero, vPosZero]).indices = [0, 1, 0]) :=
  ⟨⟨by decide, by decide,
    ((spec_c2.1 [vPosZero] vPosZero (by decide)).2.1 (by decide)).1⟩,
   ⟨by decide,
    (spec_c2.2 vPosZero vNegZero (by decide)).1,
    (spec_c2.2 vPosZero vNegZero (by decide)).2⟩⟩

/-- **C3**: for every mesh produced by the deduplicating build, every element
of the index sequence is strictly less than the vertex count, and the length
of the index sequence is a multiple of 3.  (Stated under the natural
no-`uint32`-wrap bound on the unique-vertex count.) -/
theorem spec_c3 (d : ObjData) (m : Part000.Mesh)
    (hok : Part000.loadOBJ (some d) = .ok m)
    (hsize : m.vertices.length < U32MOD) :
    (∀ i ∈ m.indices, i < m.vertexCount) ∧ 3 ∣ m.indices.length := by
  obtain ⟨stream, hs, rfl⟩ := (Part000.loadOBJ_ok_iff d m).mp hok
  dsimp only at hsize ⊢
  constructor
  · intro i hi
    rw [Part000.dedupCore_indices] at hi
    obtain ⟨x, rfl, hx⟩ := Part000.newIdxs_bound stream [] i hi
    simp only [List.nil_append] at hx
    rw [Part000.dedupCore_vertices] at hsize ⊢
    rw [Nat.mod_eq_of_lt (Nat.lt_trans hx hsize), Nat.mod_eq_of_lt hsize]
    exact hx
  · rw [Part000.dedupCore_indices, Part000.newIdxs_length,
      Part000.shapesStream_length d.attrib d.shapes stream hs]
    exact dvd_mul_right 3 (totalFaces d.shapes)

/-- Closed witness for `spec_c3` at `demoData`. -/
theorem spec_c3_witness :
    Part000.loadOBJ (some demoData) = .ok demoMeshP ∧
    demoMeshP.vertices.length < U32MOD ∧
    ((∀ i ∈ demoMeshP.indices, i < demoMeshP.vertexCount) ∧
      3 ∣ demoMeshP.indices.length) :=
  ⟨by decide, by decide, spec_c3 demoData demoMeshP (by decide) (by decide)⟩

/-- **C4**: for every input of `F` face records, the deduplicated vertex
count is at most `3 * F`, with equality exactly when no two corners of the
whole resolved stream are bitwise-identical. -/
theorem spec_c4 (d : ObjData) (m : Part000.Mesh) (stream : List Vertex)
    (hok : Part000.loadOBJ (some d) = .ok m)
    (hs : Part000.shapesStream d.attrib d.shapes = some stream) :
    m.vertices.length ≤ 3 * totalFaces d.shapes ∧
    (m.vertices.length = 3 * totalFaces d.shapes ↔ stream.Nodup) := by
  obtain ⟨stream', hs', rfl⟩ := (Part000.loadOBJ_ok_iff d m).mp hok
  obtain rfl : stream = stream' := Option.some.inj (hs.symm.trans hs')
  dsimp only
  rw [Part000.dedupCore_vertices]
  have hlen := Part000.shapesStream_length d.attrib d.shapes stream hs
  constructor
  · calc (Part000.newUniq [] stream).length
        ≤ stream.length := Part000.newUniq_length_le stream []
      _ = 3 * totalFaces d.shapes := hlen
  · rw [← hlen, Part000.newUniq_length_eq_iff stream []]
    simp

/-- Closed witness for `spec_c4` at `dupData` (corners `A, B, A`: 1 face,
vertex count 2 < 3, and the stream has a duplicate). -/
theorem spec_c4_witness :
    Part000.loadOBJ (some dupData) =
      .ok ⟨[⟨⟨1, 2, 3⟩, ⟨F0, F0, F1⟩, ⟨F0, F0⟩⟩,
            ⟨⟨4, 5, 6⟩, ⟨F0, F0, F1⟩, ⟨F0, F0⟩⟩], [0, 1, 0], 2, 3⟩ ∧
    Part000.shapesStream dupData.attrib dupData.shapes =
      some [⟨⟨1, 2, 3⟩, ⟨F0, F0, F1⟩, ⟨F0, F0⟩⟩,
            ⟨⟨4, 5, 6⟩, ⟨F0, F0, F1⟩, ⟨F0, F0⟩⟩,
            ⟨⟨1, 2, 3⟩, ⟨F0, F0, F1⟩, ⟨F0, F0⟩⟩] ∧
    ((2 : Nat) ≤ 3 * totalFaces dupData.shapes ∧
      ((2 : Nat) = 3 * totalFaces dupData.shapes ↔
        [⟨⟨1, 2, 3⟩, ⟨F0, F0, F1⟩, ⟨F0, F0⟩⟩,
         ⟨⟨4, 5, 6⟩, ⟨F0, F0, F1⟩, ⟨F0, F0⟩⟩,
         (⟨⟨1, 2, 3⟩, ⟨F0, F0, F1⟩, ⟨F0, F0⟩⟩ : Vertex)].Nodup)) :=
  ⟨by decide, by decide,
   spec_c4 dupData
     ⟨[⟨⟨1, 2, 3⟩, ⟨F0, F0, F1⟩, ⟨F0, F0⟩⟩,
       ⟨⟨4, 5, 6⟩, ⟨F0, F0, F1⟩, ⟨F0, F0⟩⟩], [0, 1, 0], 2, 3⟩
     [⟨⟨1, 2, 3⟩, ⟨F0, F0, F1⟩, ⟨F0, F0⟩⟩,
      ⟨⟨4, 5, 6⟩, ⟨F0, F0, F1⟩, ⟨F0, F0⟩⟩,
      ⟨⟨1, 2, 3⟩, ⟨F0, F0, F1⟩, ⟨F0, F0⟩⟩]
     (by decide) (by decide)⟩

/-- **C5 (counterexample)**: on the same all-defaults input the two `loadOBJ`
call sites produce different fallback normals — `(0,0,1)` in `part_000` and
`(0,0,0)` in `main.cpp` — refuting "every output vertex's normal equals the
single documented fallback constant" read across both call sites ("the two
call sites must agree"). -/
theorem spec_c5_counterexample :
    Part000.loadOBJ (some demoData) = .ok demoMeshP ∧
    MainCpp.loadOBJ (some demoData) = .ok demoMeshM ∧
    demoMeshP.vertices.map Vertex.normal =
      [⟨F0, F0, F1⟩, ⟨F0, F0, F1⟩, ⟨F0, F0, F1⟩] ∧
    demoMeshM.vertices.map Vertex.normal =
      [⟨F0, F0, F0⟩, ⟨F0, F0, F0⟩, ⟨F0, F0, F0⟩] ∧
    (⟨F0, F0, F1⟩ : vec3) ≠ ⟨F0, F0, F0⟩ :=
  ⟨by decide, by decide, by decide, by decide, by decide⟩

/-- **C5 (amended)**: an empty normals (resp. texcoords) array never causes a
failure by itself, and every output vertex's normal equals the call site's
own fallback constant — `(0,0,1)` for `part_000`, `(0,0,0)` for `main.cpp`
(the two call sites do **not** agree); every output texcoord equals `(0,0)`
at both sites. -/
theorem spec_c5 :
    (∀ (d : ObjData) (m : Part000.Mesh), d.attrib.normals = [] →
      Part000.loadOBJ (some d) = .ok m →
      ∀ v ∈ m.vertices, v.normal = ⟨F0, F0, F1⟩) ∧
    (∀ (d : ObjData) (m : MainCpp.Mesh), d.attrib.normals = [] →
      MainCpp.loadOBJ (some d) = .ok m →
      ∀ v ∈ m.vertices, v.normal = ⟨F0, F0, F0⟩) ∧
    (∀ (d : ObjData) (m : Part000.Mesh), d.attrib.texcoords = [] →
      Part000.loadOBJ (some d) = .ok m →
      ∀ v ∈ m.vertices, v.texcoords = ⟨F0, F0⟩) ∧
    (∀ (d : ObjData) (m : MainCpp.Mesh), d.attrib.texcoords = [] →
      MainCpp.loadOBJ (some d) = .ok m →
      ∀ v ∈ m.vertices, v.texcoords = ⟨F0, F0⟩) ∧
    (Part000.loadOBJ (some demoData)).isOk = true ∧
    (MainCpp.loadOBJ (some demoData)).isOk = true := by
  have hmemP : ∀ (d : ObjData) (m : Part000.Mesh),
      Part000.loadOBJ (some d) = .ok m →
      ∀ v ∈ m.vertices, ∃ idx,
        resolveCornerWith ⟨F0, F0, F1⟩ d.attrib idx = some v := by
    intro d m hok v hv
    obtain ⟨stream, hs, rfl⟩ := (Part000.loadOBJ_ok_iff d m).mp hok
    dsimp only at hv
    rw [Part000.dedupCore_vertices] at hv
    have hvs : v ∈ stream := by
      have hmem := Part000.mem_append_newUniq stream [] v
      simp only [List.nil_append] at hmem
      rcases hmem.mp hv with h | h
      · exact absurd h (by simp)
      · exact h
    obtain ⟨idx, hidx⟩ := Part000.shapesStream_mem d.attrib d.shapes stream hs v hvs
    exact ⟨idx, hidx⟩
  have hmemM : ∀ (d : ObjData) (m : MainCpp.Mesh),
      MainCpp.loadOBJ (some d) = .ok m →
      ∀ v ∈ m.vertices, ∃ idx,
        resolveCornerWith ⟨F0, F0, F0⟩ d.attrib idx = some v := by
    intro d m hok v hv
    obtain ⟨idx, hidx⟩ := MainCpp.buildShapes_ok_mem d.attrib d.shapes
      m.vertices (MainCpp.loadOBJ_ok_inv d m hok) v hv
    exact ⟨idx, hidx⟩
  refine ⟨?_, ?_, ?_, ?_, by decide, by decide⟩
  · intro d m ha hok v hv
    obtain ⟨idx, hidx⟩ := hmemP d m hok v hv
    exact resolveCornerWith_normal_fallback _ d.attrib idx v ha hidx
  · intro d m ha hok v hv
    obtain ⟨idx, hidx⟩ := hmemM d m hok v hv
    exact resolveCornerWith_normal_fallback _ d.attrib idx v ha hidx
  · intro d m ha hok v hv
    obtain ⟨idx, hidx⟩ := hmemP d m hok v hv
    exact resolveCornerWith_texcoord_fallback _ d.attrib idx v ha hidx
  · intro d m ha hok v hv
    obtain ⟨idx, hidx⟩ := hmemM d m hok v hv
    exact resolveCornerWith_texcoord_fallback _ d.attrib idx v ha hidx

/-- Closed witness for `spec_c5` at `demoData`. -/
theorem spec_c5_witness :
    demoData.attrib.normals = [] ∧ demoData.attrib.texcoords = [] ∧
    Part000.loadOBJ (some demoData) = .ok demoMeshP ∧
    MainCpp.loadOBJ (some demoData) = .ok demoMeshM ∧
    (⟨⟨1, 2, 3⟩, ⟨F0, F0, F1⟩, ⟨F0, F0⟩⟩ : Vertex).normal = ⟨F0, F0, F1⟩ ∧
    (⟨⟨1, 2, 3⟩, ⟨F0, F0, F0⟩, ⟨F0, F0⟩⟩ : Vertex).normal = ⟨F0, F0, F0⟩ ∧
    (⟨⟨1, 2, 3⟩, ⟨F0, F0, F1⟩, ⟨F0, F0⟩⟩ : Vertex).texcoords = ⟨F0, F0⟩ :=
  ⟨by decide, by decide, by decide, by decide,
   spec_c5.1 demoData demoMeshP (by decide) (by decide) _ (by decide),
   spec_c5.2.1 demoData demoMeshM (by decide) (by decide) _ (by decide),
   spec_c5.2.2.1 demoData demoMeshP (by decide) (by decide) _ (by decide)⟩

/-- **C6**: in the strict-triangulation build (`main.cpp`'s `loadOBJ`), a
face record with corner count other than 3 raises the fatal, caller-visible
`"Non-triangle face detected."` exception before its corners are touched
(conjunct 1: at the face loop, whatever the corner data; conjunct 2: the
whole load throws when the first shape's first face is such a record), and
no face is silently skipped or truncated (conjunct 3: a returned mesh
implies every face record of every shape had exactly 3 corners). -/
theorem spec_c6 :
    (∀ (a : Attrib) (inds : List ObjIndex) (fv : Nat) (fvs : List Nat)
      (off : Nat), fv ≠ 3 →
      MainCpp.buildFaces a inds (fv :: fvs) off =
        .thrown "Non-triangle face detected.") ∧
    (∀ (a : Attrib) (s : Shape) (rest : List Shape) (fv : Nat) (fvs : List Nat),
      s.mesh.num_face_vertices = fv :: fvs → fv ≠ 3 →
      MainCpp.loadOBJ (some ⟨a, s :: rest⟩) =
        .thrown "Non-triangle face detected.") ∧
    (∀ (d : ObjData) (m : MainCpp.Mesh), MainCpp.loadOBJ (some d) = .ok m →
      ∀ s ∈ d.shapes, ∀ fv ∈ s.mesh.num_face_vertices, fv = 3) := by
  refine ⟨MainCpp.buildFaces_nontriangle, ?_, ?_⟩
  · intro a s rest fv fvs hnfv h3
    have hbf : MainCpp.buildFaces a s.mesh.indices s.mesh.num_face_vertices 0 =
        .thrown "Non-triangle face detected." := by
      rw [hnfv]
      exact MainCpp.buildFaces_nontriangle a s.mesh.indices fv fvs 0 h3
    simp only [MainCpp.loadOBJ, MainCpp.buildShapes, hbf, rbind, rmap]
  · intro d m hok
    exact MainCpp.buildShapes_ok_all3 d.attrib d.shapes m.vertices
      (MainCpp.loadOBJ_ok_inv d m hok)

/-- Closed witness for `spec_c6` at a quad face. -/
theorem spec_c6_witness :
    (4 : Nat) ≠ 3 ∧
    quadShape.mesh.num_face_vertices = 4 :: [] ∧
    MainCpp.loadOBJ (some ⟨quadData.attrib, quadShape :: []⟩) =
      .thrown "Non-triangle face detected." :=
  ⟨by decide, rfl, spec_c6.2.1 quadData.attrib quadShape [] 4 [] rfl (by decide)⟩

/-- **C7**: vertex equality used for deduplication (`Vertex::operator==`,
a `memcmp` over the packed struct) holds exactly when all 8 numeric
components are bit-for-bit identical — equivalently, when the two vertex
values are equal — with no epsilon tolerance; consequently two vertices
differing only between the `+0.0f` and `-0.0f` bit patterns (equal as
IEEE-754 floating-point numbers) compare unequal and are kept distinct by
the dedup. -/
theorem spec_c7 :
    (∀ x y : Vertex, vertexMemcmpEq x y = true ↔
      (x.position.x = y.position.x ∧ x.position.y = y.position.y ∧
       x.position.z = y.position.z ∧ x.normal.x = y.normal.x ∧
       x.normal.y = y.normal.y ∧ x.normal.z = y.normal.z ∧
       x.texcoords.x = y.texcoords.x ∧ x.texcoords.y = y.texcoords.y)) ∧
    (∀ x y : Vertex, vertexMemcmpEq x y = true ↔ x = y) ∧
    vertexMemcmpEq vPosZero vNegZero = false ∧
    (Part000.dedupCore [vPosZero, vNegZero]).vertices =
      [vPosZero, vNegZero] := by
  refine ⟨?_, vertexMemcmpEq_iff, by decide, by decide⟩
  intro x y
  simp only [vertexMemcmpEq, Bool.and_eq_true, beq_iff_eq]
  tauto

/-- **C8 (counterexample)**: a corner whose position index is out of the
source array's bounds does not make either loader raise any error: both
loads end in undefined behaviour (an unchecked out-of-bounds vector read) —
no `IndexOutOfRangeError` (or any exception) is propagated and no mesh is
produced. -/
theorem spec_c8_counterexample :
    Part000.loadOBJ (some oobData) = .ub ∧
    (Part000.loadOBJ (some oobData)).isThrown = false ∧
    (Part000.loadOBJ (some oobData)).isOk = false ∧
    MainCpp.loadOBJ (some oobData) = .ub ∧
    (MainCpp.loadOBJ (some oobData)).isThrown = false ∧
    (MainCpp.loadOBJ (some oobData)).isOk = false :=
  ⟨by decide, by decide, by decide, by decide, by decide, by decide⟩

/-- **C8 (amended)**: neither loader performs an attribute-index bounds
check; whenever some corner of the stream fails to resolve (an out-of-range
or negative unchecked read), `part_000`'s whole load is undefined behaviour:
no exception is raised and no mesh is produced. -/
theorem spec_c8 (d : ObjData)
    (hfail : Part000.shapesStream d.attrib d.shapes = none) :
    Part000.loadOBJ (some d) = .ub ∧
    (Part000.loadOBJ (some d)).isThrown = false ∧
    (Part000.loadOBJ (some d)).isOk = false := by
  have h := Part000_loadOBJ_ub d hfail
  rw [h]
  exact ⟨rfl, rfl, rfl⟩

/-- Closed witness for `spec_c8` at `oobData`. -/
theorem spec_c8_witness :
    Part000.shapesStream oobData.attrib oobData.shapes = none ∧
    (Part000.loadOBJ (some oobData) = .ub ∧
      (Part000.loadOBJ (some oobData)).isThrown = false ∧
      (Part000.loadOBJ (some oobData)).isOk = false) :=
  ⟨by decide, spec_c8 oobData (by decide)⟩

/-- **C9 (counterexample)**: a failing load that does not terminate by
raising: a corner with an out-of-range (but guard-passing) normal index
makes both loaders end in undefined behaviour — the load fails and no mesh
is produced, yet no exception is thrown, refuting "on every error path the
build terminates by raising". -/
theorem spec_c9_counterexample :
    Part000.loadOBJ (some oobNormalData) = .ub ∧
    (Part000.loadOBJ (some oobNormalData)).isThrown = false ∧
    (Part000.loadOBJ (some oobNormalData)).isOk = false ∧
    MainCpp.loadOBJ (some oobNormalData) = .ub ∧
    (MainCpp.loadOBJ (some oobNormalData)).isThrown = false ∧
    (MainCpp.loadOBJ (some oobNormalData)).isOk = false :=
  ⟨by decide, by decide, by decide, by decide, by decide, by decide⟩

/-- **C9 (amended)**: parse failures and (in the strict build) non-triangle
faces abort the load by raising immediately, and no partial mesh ever
reaches the caller: a thrown result carries no mesh, and a returned mesh
implies no failure occurred (the whole stream resolved for `part_000`;
every face was a triangle for `main.cpp`).  Out-of-range attribute indices,
however, end the load in undefined behaviour, not in a raised error. -/
theorem spec_c9 :
    Part000.loadOBJ none = .thrown "Failed to load OBJ" ∧
    MainCpp.loadOBJ none = .thrown "Failed to load OBJ file." ∧
    (∀ (d : ObjData) (m : Part000.Mesh), Part000.loadOBJ (some d) = .ok m →
      ∃ stream, Part000.shapesStream d.attrib d.shapes = some stream) ∧
    (∀ (d : ObjData) (m : MainCpp.Mesh), MainCpp.loadOBJ (some d) = .ok m →
      ∀ s ∈ d.shapes, ∀ fv ∈ s.mesh.num_face_vertices, fv = 3) ∧
    (∀ (p : Option ObjData) (msg : String),
      Part000.loadOBJ p = .thrown msg → (Part000.loadOBJ p).isOk = false) ∧
    (∀ (p : Option ObjData) (msg : String),
      MainCpp.loadOBJ p = .thrown msg → (MainCpp.loadOBJ p).isOk = false) := by
  refine ⟨rfl, rfl, ?_, ?_, ?_, ?_⟩
  · intro d m hok
    obtain ⟨stream, hs, -⟩ := (Part000.loadOBJ_ok_iff d m).mp hok
    exact ⟨stream, hs⟩
  · intro d m hok
    exact MainCpp.buildShapes_ok_all3 d.attrib d.shapes m.vertices
      (MainCpp.loadOBJ_ok_inv d m hok)
  · intro p msg h
    rw [h]
    rfl
  · intro p msg h
    rw [h]
    rfl

/-- Closed witness for `spec_c9` at concrete inputs. -/
theorem spec_c9_witness :
    (Part000.loadOBJ (some goodData) = .ok goodMeshP ∧
      ∃ stream, Part000.shapesStream goodData.attrib goodData.shapes =
        some stream) ∧
    (MainCpp.loadOBJ (some goodData) = .ok goodMeshM ∧ (3 : Nat) = 3) ∧
    (Part000.loadOBJ none).isOk = false ∧
    (MainCpp.loadOBJ none).isOk = false :=
  ⟨⟨by decide, spec_c9.2.2.1 goodData goodMeshP (by decide)⟩,
   ⟨by decide,
    spec_c9.2.2.2.1 goodData goodMeshM (by decide) goodShape (by decide)
      3 (by decide)⟩,
   spec_c9.2.2.2.2.1 none "Failed to load OBJ" (by decide),
   spec_c9.2.2.2.2.2 none "Failed to load OBJ file." (by decide)⟩

/-- **C10**: when the normals and texcoords arrays are non-empty and every
scanned corner carries non-negative (and, as enforced by the successful
loads, in-range) normal and texcoord indices — so no fallback applies — and
every face has exactly 3 corners (as enforced by the strict load),
expanding the deduplicated output of the indexed `loadOBJ` variant
(`vertices[indices[i]]`, in order) yields exactly the flat vertex sequence
produced by the non-deduplicating `loadOBJ` variant on the same input. -/
theorem spec_c10 (d : ObjData) (fm : MainCpp.Mesh) (m : Part000.Mesh)
    (hn : d.attrib.normals ≠ []) (ht : d.attrib.texcoords ≠ [])
    (hprem : ∀ s ∈ d.shapes, ∀ k, k < 3 * s.mesh.num_face_vertices.length →
      ∀ idx, s.mesh.indices.get? k = some idx →
        0 ≤ idx.normal_index ∧ 0 ≤ idx.texcoord_index)
    (hflat : MainCpp.loadOBJ (some d) = .ok fm)
    (hidx : Part000.loadOBJ (some d) = .ok m)
    (hsize : m.vertices.length ≤ U32MOD) :
    replay m.vertices m.indices = some fm.vertices := by
  have hb := MainCpp.loadOBJ_ok_inv d fm hflat
  have hstream : Part000.shapesStream d.attrib d.shapes = some fm.vertices :=
    flat_ok_shapesStream d.attrib hn d.shapes fm.vertices
      (fun s hs k hk idx hidx2 => (hprem s hs k hk idx hidx2).1) hb
  obtain ⟨stream', hs', rfl⟩ := (Part000.loadOBJ_ok_iff d m).mp hidx
  obtain rfl : fm.vertices = stream' := Option.some.inj (hstream.symm.trans hs')
  dsimp only at hsize ⊢
  rw [Part000.dedupCore_vertices, Part000.dedupCore_indices] at *
  have hr := Part000.replay_newIdxs fm.vertices []
  simp only [List.nil_append] at hr
  exact hr hsize

/-- Closed witness for `spec_c10` at `goodData`. -/
theorem spec_c10_witness :
    goodData.attrib.normals ≠ [] ∧ goodData.attrib.texcoords ≠ [] ∧
    MainCpp.loadOBJ (some goodData) = .ok goodMeshM ∧
    Part000.loadOBJ (some goodData) = .ok goodMeshP ∧
    goodMeshP.vertices.length ≤ U32MOD ∧
    replay goodMeshP.vertices goodMeshP.indices = some goodMeshM.vertices :=
  ⟨by decide, by decide, by decide, by decide, by decide,
   spec_c10 goodData goodMeshM goodMeshP (by decide) (by decide)
     (by
       intro s hs k hk idx hidx2
       have hsm : s = goodShape := by
         simpa [goodData] using hs
       subst hsm
       have hmem : idx ∈ goodShape.mesh.indices := List.get?_mem hidx2
       simp only [goodShape, List.mem_cons, List.not_mem_nil, or_false] at hmem
       rcases hmem with rfl | rfl | rfl <;> exact ⟨by decide, by decide⟩)
     (by decide) (by decide) (by decide)⟩
